import Mathlib

/-
Verification development for the argparse single-header C++ argument parser
(src/argparse.h).  The data model (typed values, positional and optional
argument specifications, the parser state) and the operations (value
conversion, registration, the two-phase parse, queries) are shallowly
embedded below, translated from the source.  C++ std::string values are
modelled as Lean String; std::stol and std::stod are modelled explicitly;
an out-of-range vector-iterator dereference (undefined behavior in C++) is
modelled as the distinguished error OutOfBounds.  The map member is only
ever written through std::map insert (which never overwrites an existing
key); the scan functions below collect those insert calls in execution
order as a trace, and the parse entry point folds the trace into the map
with the same insert-if-absent semantics.  Output formatting, the help
printer, and the process-exit paths are I/O and are outside the embedding.
-/

deriving instance DecidableEq for Except

namespace Argparse

/-- Errors raised by value construction and by the parse phases.
OutOfBounds stands for an out-of-range iterator or vector access,
which is undefined behavior in the C++ source. -/
inductive PErr where
  | ConversionError
  | InsufficientArguments
  | OutOfBounds
deriving DecidableEq, Repr

/-- Errors raised by the registration operations. -/
inductive RegErr where
  | RegistrationError
deriving DecidableEq, Repr

/-- Errors raised by the value queries get and getall. -/
inductive QueryErr where
  | ParserNotReady
  | NotFound
  | ConversionError
  | OutOfBounds
deriving DecidableEq, Repr

/-- The enum value_type of src/argparse.h. -/
inductive value_type where
  | Null
  | Bool
  | Integer
  | Float
  | String
deriving DecidableEq, Repr

/-- typedef arg. -/
abbrev arg := String
/-- typedef args. -/
abbrev args := List arg

/-- Characters accepted by isspace in the default locale, as skipped by
strtol and strtod. -/
def isSpaceChar (c : Char) : Bool :=
  c == ' ' || c == '\t' || c == '\n' || c == '\x0b' || c == '\x0c' || c == '\r'

/-- Accumulate a decimal digit string into a natural number. -/
def digitsToNat (ds : List Char) : Nat :=
  ds.foldl (fun a c => a * 10 + (c.toNat - 48)) 0

/-- Model of std::stol with base 10: skip leading whitespace, take an
optional sign and then a nonempty run of decimal digits, ignoring any
trailing characters.  Returns none exactly when the C++ call throws
(invalid_argument when no digits are found, out_of_range when the value
does not fit in a 64-bit signed long). -/
def stol (s : arg) : Option Int :=
  let l := s.data.dropWhile isSpaceChar
  let sgn : Int :=
    match l with
    | c :: _ => if c == '-' then -1 else 1
    | [] => 1
  let l2 : List Char :=
    match l with
    | c :: r => if c == '-' || c == '+' then r else c :: r
    | [] => []
  let ds := l2.takeWhile Char.isDigit
  if ds.isEmpty then none
  else
    let n : Int := sgn * (digitsToNat ds : Int)
    if n < -(2 ^ 63) || (2 ^ 63 - 1 : Int) < n then none else some n

/-- Full case-insensitive match of a string against a lowercase literal
pattern, as performed by regex_match with the icase flag. -/
def lowerEq (s : arg) (pat : arg) : Bool :=
  s.data.map Char.toLower == pat.data

/-- value::convert_bool: literal true and false case-insensitively,
otherwise the integer truthiness of the stol parse, otherwise failure. -/
def convert_bool (v : arg) : Except PErr Bool :=
  if lowerEq v "true" then .ok true
  else if lowerEq v "false" then .ok false
  else
    match stol v with
    | some n => .ok (n != 0)
    | none => .error .ConversionError

/-- value::convert_integer via std::stol. -/
def convert_integer (v : arg) : Except PErr Int :=
  match stol v with
  | some n => .ok n
  | none => .error .ConversionError

/-- Acceptance model of std::stod (strtod): after optional whitespace and
sign, a nonempty digit run, or a decimal point followed by a digit, or an
inf or nan form, with trailing characters ignored.  Range errors of stod
are not modelled; no claim in this development exercises Float values. -/
def stodOk (s : arg) : Bool :=
  let l := s.data.dropWhile isSpaceChar
  let l2 : List Char :=
    match l with
    | c :: r => if c == '-' || c == '+' then r else c :: r
    | [] => []
  if !(l2.takeWhile Char.isDigit).isEmpty then true
  else
    match l2 with
    | '.' :: r => !(r.takeWhile Char.isDigit).isEmpty
    | _ =>
      (l2.take 3).map Char.toLower == "inf".data ||
      (l2.take 3).map Char.toLower == "nan".data

/-- value::convert_float via std::stod; only the success condition is
relevant to construction-time validation. -/
def convert_float (v : arg) : Except PErr Unit :=
  if stodOk v then .ok () else .error .ConversionError

/-- value::convert_string never fails. -/
def convert_string (v : arg) : Except PErr arg := .ok v

/-- The class value: a typed container holding the raw token text. -/
structure value where
  type : value_type
  raw : arg
deriving DecidableEq, Repr

/-- value::assert_argument_type: run the conversion for the declared type
and discard the result; Null is always an error. -/
def assert_argument_type (t : value_type) (s : arg) : Except PErr Unit :=
  match t with
  | .Null => .error .ConversionError
  | .Bool =>
    match convert_bool s with
    | .ok _ => .ok ()
    | .error e => .error e
  | .Integer =>
    match convert_integer s with
    | .ok _ => .ok ()
    | .error e => .error e
  | .Float => convert_float s
  | .String =>
    match convert_string s with
    | .ok _ => .ok ()
    | .error e => .error e

/-- The value constructor value(type, s): validates the raw text against
the declared type at construction time. -/
def mkValue (t : value_type) (s : arg) : Except PErr value :=
  match assert_argument_type t s with
  | .ok _ => .ok ⟨t, s⟩
  | .error e => .error e

/-- The constant variable_args, the arity marker for variable arguments. -/
def variable_args : Int := -1

/-- The class positional_argument. -/
structure positional_argument where
  name : arg
  type : value_type
  nargs : Int
  comment : arg
deriving DecidableEq, Repr

/-- The class optional_argument, carrying its directive strings. -/
structure optional_argument where
  name : arg
  type : value_type
  nargs : Int
  comment : arg
  optseqs : List arg
deriving DecidableEq, Repr

/-- optional_argument::operator==(str): unity when some directive equals
the token. -/
def optMatch (o : optional_argument) (s : arg) : Bool :=
  o.optseqs.any (fun d => d == s)

/-- std::find over the registered optional list with operator==: whether
the token matches a directive of any registered optional specification. -/
def anyOptMatches (ops : List optional_argument) (s : arg) : Bool :=
  ops.any (fun o => optMatch o s)

/-- The member _map modelled as an association list in insertion order. -/
abbrev valmap := List (arg × List value)

/-- Whether std::map::find succeeds for the key. -/
def mapContains (m : valmap) (k : arg) : Bool :=
  m.any (fun kv => kv.1 == k)

/-- std::map::at / find for the key. -/
def mapLookup (m : valmap) (k : arg) : Option (List value) :=
  (m.find? (fun kv => kv.1 == k)).map (fun kv => kv.2)

/-- std::map::insert: a no-op when the key is already present. -/
def mapInsert (m : valmap) (k : arg) (v : List value) : valmap :=
  if mapContains m k then m else m ++ [(k, v)]

/-- An ordered list of insert calls performed by a scan. -/
abbrev insTrace := List (arg × List value)

/-- Replay a list of insert calls against a map, in order. -/
def applyTrace (m : valmap) (t : insTrace) : valmap :=
  t.foldl (fun m kv => mapInsert m kv.1 kv.2) m

/-- The parser class argparse: its private state. -/
structure argparse where
  description : arg
  completed : Bool
  varargs : Bool
  appname : arg
  map : valmap
  arguments : args
  positional_parsers : List positional_argument
  optional_parsers : List optional_argument
deriving DecidableEq, Repr

/-- The help option pushed by the constructor when with_help is set. -/
def helpOption : optional_argument :=
  { name := "help", type := .Bool, nargs := 0,
    comment := "Show a help message", optseqs := ["-h", "--help"] }

/-- The argparse constructor: argv[0] is the application name, the rest
are the raw tokens; the help option is registered unless disabled. -/
def mkArgparse (appname : arg) (tokens : args) (desc : arg) (with_help : Bool) : argparse :=
  { description := desc, completed := false, varargs := false,
    appname := appname, map := [], arguments := tokens,
    positional_parsers := [],
    optional_parsers := if with_help then [helpOption] else [] }

/-- argparse::add_argument(name, type, n, com). -/
def add_argument (p : argparse) (name : arg) (type : value_type) (n : Int) (com : arg) :
    Except RegErr argparse :=
  if name == "help" then .error .RegistrationError
  else if p.varargs then .error .RegistrationError
  else .ok { p with
    varargs := p.varargs || decide (n < 0),
    positional_parsers := p.positional_parsers ++ [⟨name, type, n, com⟩],
    completed := false }

/-- argparse::add_option(dirs, name, type, n, com); the single-directive
overload passes a one-element list. -/
def add_option (p : argparse) (dirs : List arg) (name : arg) (type : value_type) (n : Int) (com : arg) :
    Except RegErr argparse :=
  if name == "help" then .error .RegistrationError
  else .ok { p with
    optional_parsers := p.optional_parsers ++ [⟨name, type, n, com, dirs⟩],
    completed := false }

/-- The implicit Bool true value recorded for a matched arity-0 option. -/
def valueTrue : value := ⟨.Bool, "true"⟩

/-- Phase 1, fixed-arity consumption: the loop for i in 0..size reading
*vp and advancing, with no end-of-input check in the source; dereferencing
the end iterator is modelled as the OutOfBounds error. -/
def consumeFixed (t : value_type) (n : Nat) (l : args) : Except PErr (List value × args) :=
  match n, l with
  | 0, l => .ok ([], l)
  | _ + 1, [] => .error .OutOfBounds
  | n + 1, s :: l1 =>
    match mkValue t s with
    | .error e => .error e
    | .ok v =>
      match consumeFixed t n l1 with
      | .error e => .error e
      | .ok (vs, l2) => .ok (v :: vs, l2)

/-- Phase 1, variable-arity consumption: the while loop that stops at the
end of input or at a token matching a directive of any registered
optional specification (the matched option itself included). -/
def consumeVar (t : value_type) (ops : List optional_argument) (l : args) :
    Except PErr (List value × args) :=
  match l with
  | [] => .ok ([], [])
  | s :: l1 =>
    if anyOptMatches ops s then .ok ([], s :: l1)
    else
      match mkValue t s with
      | .error e => .error e
      | .ok v =>
        match consumeVar t ops l1 with
        | .error e => .error e
        | .ok (vs, l2) => .ok (v :: vs, l2)

/-- Phase 1, one pass of the for loop over the registered optional
specifications at the current cursor.  Returns the inserts performed (in
order) and either an error or the updated flag together with the rest of
the input after all consumption of this pass. -/
def scanOpts (allOps : List optional_argument) (ops : List optional_argument)
    (l : args) (u : Bool) : insTrace × Except PErr (Bool × args) :=
  match ops with
  | [] => ([], .ok (u, l))
  | o :: rest =>
    match l with
    | [] => ([], .ok (u, []))
    | s :: l1 =>
      if optMatch o s then
        if o.nargs == 0 then
          let tr := scanOpts allOps rest l1 true
          ((o.name, [valueTrue]) :: tr.1, tr.2)
        else if 1 ≤ o.nargs then
          match consumeFixed o.type o.nargs.toNat l1 with
          | .error e => ([], .error e)
          | .ok (v, l2) =>
            let tr := scanOpts allOps rest l2 true
            ((o.name, v) :: tr.1, tr.2)
        else if o.nargs == variable_args then
          match consumeVar o.type allOps l1 with
          | .error e => ([], .error e)
          | .ok (v, l2) =>
            let tr := scanOpts allOps rest l2 true
            ((o.name, v) :: tr.1, tr.2)
        else
          scanOpts allOps rest l1 true
      else
        scanOpts allOps rest (s :: l1) u

/-- consumeFixed never lengthens the input. -/
theorem consumeFixed_length (t : value_type) :
    ∀ (n : Nat) (l : args) (v : List value) (l2 : args),
      consumeFixed t n l = .ok (v, l2) → l2.length ≤ l.length := by
  intro n
  induction n with
  | zero =>
    intro l v l2 h
    simp [consumeFixed] at h
    simp [h.2]
  | succ n ih =>
    intro l v l2 h
    match l with
    | [] => simp [consumeFixed] at h
    | s :: l1 =>
      simp only [consumeFixed] at h
      cases hm : mkValue t s with
      | error e => rw [hm] at h; simp at h
      | ok w =>
        rw [hm] at h
        cases hc : consumeFixed t n l1 with
        | error e => rw [hc] at h; simp at h
        | ok p =>
          rw [hc] at h
          simp at h
          have := ih l1 p.1 p.2 (by rw [hc])
          rw [← h.2]
          simp
          omega

/-- consumeVar never lengthens the input. -/
theorem consumeVar_length (t : value_type) (ops : List optional_argument) :
    ∀ (l : args) (v : List value) (l2 : args),
      consumeVar t ops l = .ok (v, l2) → l2.length ≤ l.length := by
  intro l
  induction l with
  | nil =>
    intro v l2 h
    simp [consumeVar] at h
    simp [h.2]
  | cons s l1 ih =>
    intro v l2 h
    simp only [consumeVar] at h
    by_cases hd : anyOptMatches ops s
    · simp [hd] at h
      simp [← h.2]
    · simp [hd] at h
      cases hm : mkValue t s with
      | error e => rw [hm] at h; simp at h
      | ok w =>
        rw [hm] at h
        cases hc : consumeVar t ops l1 with
        | error e => rw [hc] at h; simp at h
        | ok p =>
          rw [hc] at h
          simp at h
          have := ih p.1 p.2 (by rw [hc])
          rw [← h.2]
          simp
          omega

/-- A scanOpts pass never lengthens the input, and strictly shortens it
when it reports an update starting from a fresh flag. -/
theorem scanOpts_length (allOps : List optional_argument) :
    ∀ (ops : List optional_argument) (l : args) (u : Bool) (t : insTrace) (b : Bool) (l2 : args),
      scanOpts allOps ops l u = (t, .ok (b, l2)) →
      l2.length ≤ l.length ∧ (u = false → b = true → l2.length < l.length) := by
  intro ops
  induction ops with
  | nil =>
    intro l u t b l2 h
    simp [scanOpts] at h
    refine ⟨by simp [h.2.2], ?_⟩
    intro hu hb
    rw [hu] at h; rw [hb] at h
    simp at h
  | cons o rest ih =>
    intro l u t b l2 h
    match l with
    | [] =>
      simp [scanOpts] at h
      refine ⟨by simp [← h.2.2], ?_⟩
      intro hu hb
      rw [hu] at h; rw [hb] at h
      simp at h
    | s :: l1 =>
      simp only [scanOpts] at h
      by_cases h1 : optMatch o s
      · simp only [h1, if_true] at h
        by_cases h2 : o.nargs == 0
        · simp only [h2, if_true] at h
          rcases hsc : scanOpts allOps rest l1 true with ⟨t3, r3⟩
          rw [hsc] at h
          simp at h
          have := (ih l1 true t3 b l2 (by rw [hsc, h.2])).1
          constructor
          · simp; omega
          · intro _ _; simp; omega
        · simp only [h2, if_false] at h
          by_cases h3 : 1 ≤ o.nargs
          · simp only [h3, if_true] at h
            cases hcf : consumeFixed o.type o.nargs.toNat l1 with
            | error e => rw [hcf] at h; simp at h
            | ok p =>
              obtain ⟨v3, l3⟩ := p
              rw [hcf] at h
              simp only [] at h
              rcases hsc : scanOpts allOps rest l3 true with ⟨t3, r3⟩
              rw [hsc] at h
              simp at h
              have hlen := consumeFixed_length o.type o.nargs.toNat l1 v3 l3 (by rw [hcf])
              have := (ih l3 true t3 b l2 (by rw [hsc, h.2])).1
              constructor
              · simp; omega
              · intro _ _; simp; omega
          · simp only [h3, if_false] at h
            by_cases h4 : o.nargs == variable_args
            · simp only [h4, if_true] at h
              cases hcv : consumeVar o.type allOps l1 with
              | error e => rw [hcv] at h; simp at h
              | ok p =>
                obtain ⟨v3, l3⟩ := p
                rw [hcv] at h
                simp only [] at h
                rcases hsc : scanOpts allOps rest l3 true with ⟨t3, r3⟩
                rw [hsc] at h
                simp at h
                have hlen := consumeVar_length o.type allOps l1 v3 l3 (by rw [hcv])
                have := (ih l3 true t3 b l2 (by rw [hsc, h.2])).1
                constructor
                · simp; omega
                · intro _ _; simp; omega
            · simp only [h4, if_false] at h
              have := (ih l1 true t b l2 h).1
              constructor
              · simp; omega
              · intro _ _; simp; omega
      · simp only [h1, if_false] at h
        exact ih (s :: l1) u t b l2 h

/-- Phase 1: the outer while loop over the raw tokens.  Each pass runs the
for loop over the optional specifications; when nothing matched, the
current token is pushed onto the remaining sequence and the cursor
advances by one. -/
def phase1 (allOps : List optional_argument) (l : args) (rem : args) :
    insTrace × Except PErr args :=
  match l with
  | [] => ([], .ok rem)
  | s :: l1 =>
    match h : scanOpts allOps allOps (s :: l1) false with
    | (t, .error e) => (t, .error e)
    | (t, .ok (true, l2)) =>
      let tr := phase1 allOps l2 rem
      (t ++ tr.1, tr.2)
    | (t, .ok (false, _)) =>
      let tr := phase1 allOps l1 (rem ++ [s])
      (t ++ tr.1, tr.2)
termination_by l.length
decreasing_by
  · exact (scanOpts_length allOps allOps (s :: l1) false t true l2 h).2 rfl rfl
  · simp

/-- Unfolding equation for phase1 on a nonempty input, stated with a plain
match so that it rewrites cleanly. -/
theorem phase1_cons (allOps : List optional_argument) (s : arg) (l1 : args) (rem : args) :
    phase1 allOps (s :: l1) rem =
      match scanOpts allOps allOps (s :: l1) false with
      | (t, .error e) => (t, .error e)
      | (t, .ok (true, l2)) =>
        let tr := phase1 allOps l2 rem
        (t ++ tr.1, tr.2)
      | (t, .ok (false, _)) =>
        let tr := phase1 allOps l1 (rem ++ [s])
        (t ++ tr.1, tr.2) := by
  rw [phase1]
  rcases hsc : scanOpts allOps allOps (s :: l1) false with ⟨t, r⟩
  match r with
  | .error e => simp
  | .ok (true, l2) => simp
  | .ok (false, l2) => simp

/-- Unfolding equation for phase1 on the empty input. -/
theorem phase1_nil (allOps : List optional_argument) (rem : args) :
    phase1 allOps [] rem = ([], .ok rem) := by
  rw [phase1]

/-- Phase 2, fixed-arity consumption from the remaining sequence: the
source checks the end of the sequence at every step and throws the
insufficient-arguments error. -/
def consumePos (t : value_type) (n : Nat) (l : args) : Except PErr (List value × args) :=
  match n, l with
  | 0, l => .ok ([], l)
  | _ + 1, [] => .error .InsufficientArguments
  | n + 1, s :: l1 =>
    match mkValue t s with
    | .error e => .error e
    | .ok v =>
      match consumePos t n l1 with
      | .error e => .error e
      | .ok (vs, l2) => .ok (v :: vs, l2)

/-- Phase 2, variable-arity consumption: all remaining values. -/
def consumeAll (t : value_type) (l : args) : Except PErr (List value) :=
  match l with
  | [] => .ok []
  | s :: l1 =>
    match mkValue t s with
    | .error e => .error e
    | .ok v =>
      match consumeAll t l1 with
      | .error e => .error e
      | .ok vs => .ok (v :: vs)

/-- Phase 2: walk the remaining sequence against the positional
specifications in registration order.  The source throws the
insufficient-arguments error whenever a specification is reached with the
remaining sequence exhausted, before dispatching on its arity. -/
def phase2 (pps : List positional_argument) (l : args) : insTrace × Option PErr :=
  match pps with
  | [] => ([], none)
  | p :: rest =>
    match l with
    | [] => ([], some .InsufficientArguments)
    | s :: l1 =>
      if 1 ≤ p.nargs then
        match consumePos p.type p.nargs.toNat (s :: l1) with
        | .error e => ([], some e)
        | .ok (v, l2) =>
          let tr := phase2 rest l2
          ((p.name, v) :: tr.1, tr.2)
      else if p.nargs == variable_args then
        match consumeAll p.type (s :: l1) with
        | .error e => ([], some e)
        | .ok v =>
          let tr := phase2 rest []
          ((p.name, v) :: tr.1, tr.2)
      else
        let tr := phase2 rest (s :: l1)
        ((p.name, []) :: tr.1, tr.2)

/-- argparse::parse modulo its I/O: runs phase 1 then phase 2, folds the
collected inserts into the member map, and sets the completed flag only
on full success.  On error the member map keeps the inserts performed up
to the failure and the completed flag is left unchanged, matching the
rethrow path taken when help_on_error is disabled; the help-display and
process-exit paths are I/O and are not modelled. -/
def parseF (p : argparse) : argparse × Option PErr :=
  match phase1 p.optional_parsers p.arguments [] with
  | (t1, .error e) => ({ p with map := applyTrace p.map t1 }, some e)
  | (t1, .ok rem) =>
    match phase2 p.positional_parsers rem with
    | (t2, some e) => ({ p with map := applyTrace p.map (t1 ++ t2) }, some e)
    | (t2, none) => ({ p with map := applyTrace p.map (t1 ++ t2), completed := true }, none)

/-- argparse::getall, parameterized by the per-element conversion that the
template instantiates. -/
def getall {α : Type} (conv : value → Except QueryErr α) (p : argparse) (name : arg) :
    Except QueryErr (List α) :=
  if p.completed then
    match mapLookup p.map name with
    | none => .error .NotFound
    | some varr => varr.mapM conv
  else .error .ParserNotReady

/-- argparse::get, parameterized by the conversion; reading element 0 of
an empty vector is undefined behavior, modelled as OutOfBounds. -/
def get {α : Type} (conv : value → Except QueryErr α) (p : argparse) (name : arg) :
    Except QueryErr α :=
  if p.completed then
    match mapLookup p.map name with
    | none => .error .NotFound
    | some varr =>
      match varr with
      | [] => .error .OutOfBounds
      | v :: _ => conv v
  else .error .ParserNotReady

/-- Inserting a key makes the map contain it. -/
theorem mapContains_mapInsert_self (m : valmap) (k : arg) (v : List value) :
    mapContains (mapInsert m k v) k = true := by
  by_cases h : mapContains m k = true
  · rw [mapInsert, if_pos h]
    exact h
  · rw [mapInsert, if_neg h]
    unfold mapContains at h ⊢
    rw [List.any_append]
    simp

/-- Containment is preserved by further inserts. -/
theorem mapContains_mapInsert_mono (m : valmap) (k k' : arg) (v : List value)
    (h : mapContains m k = true) : mapContains (mapInsert m k' v) k = true := by
  by_cases h2 : mapContains m k' = true
  · rw [mapInsert, if_pos h2]
    exact h
  · rw [mapInsert, if_neg h2]
    unfold mapContains at h ⊢
    rw [List.any_append, h]
    rfl

/-- Inserting an already-present key is a no-op. -/
theorem mapInsert_of_contains (m : valmap) (k : arg) (v : List value)
    (h : mapContains m k = true) : mapInsert m k v = m := by
  rw [mapInsert, if_pos h]

/-- Inserting any key never changes the values of an already-present key. -/
theorem mapLookup_mapInsert_of_contains (m : valmap) (k k' : arg) (v : List value)
    (h : mapContains m k = true) : mapLookup (mapInsert m k' v) k = mapLookup m k := by
  by_cases h2 : mapContains m k' = true
  · rw [mapInsert, if_pos h2]
  · rw [mapInsert, if_neg h2]
    unfold mapLookup
    rw [List.find?_append]
    unfold mapContains at h
    rw [List.any_eq_true] at h
    obtain ⟨kv, hmem, hbeq⟩ := h
    have hs : (List.find? (fun kv => kv.1 == k) m).isSome = true := by
      rw [List.find?_isSome]
      exact ⟨kv, hmem, hbeq⟩
    rcases hf : List.find? (fun kv => kv.1 == k) m with _ | kv2
    · rw [hf] at hs; simp at hs
    · rw [hf]
      simp

/-- Replaying a trace preserves containment. -/
theorem mapContains_applyTrace_mono (t : insTrace) :
    ∀ (m : valmap) (k : arg), mapContains m k = true →
      mapContains (applyTrace m t) k = true := by
  induction t with
  | nil => intro m k h; simpa [applyTrace]
  | cons kv t ih =>
    intro m k h
    have : applyTrace m (kv :: t) = applyTrace (mapInsert m kv.1 kv.2) t := rfl
    rw [this]
    exact ih _ k (mapContains_mapInsert_mono m k kv.1 kv.2 h)

/-- Every key inserted by a trace is contained in the replayed map. -/
theorem mapContains_applyTrace_of_mem (t : insTrace) :
    ∀ (m : valmap) (kv : arg × List value), kv ∈ t →
      mapContains (applyTrace m t) kv.1 = true := by
  induction t with
  | nil => intro m kv h; simp at h
  | cons kv0 t ih =>
    intro m kv h
    have heq : applyTrace m (kv0 :: t) = applyTrace (mapInsert m kv0.1 kv0.2) t := rfl
    rw [heq]
    rcases List.mem_cons.mp h with h1 | h1
    · rw [h1]
      exact mapContains_applyTrace_mono t _ kv0.1 (mapContains_mapInsert_self m kv0.1 kv0.2)
    · exact ih _ kv h1

/-- Replaying a trace whose keys are all present changes nothing. -/
theorem applyTrace_eq_of_contains (t : insTrace) :
    ∀ (m : valmap), (∀ kv ∈ t, mapContains m kv.1 = true) → applyTrace m t = m := by
  induction t with
  | nil => intro m _; rfl
  | cons kv t ih =>
    intro m h
    have heq : applyTrace m (kv :: t) = applyTrace (mapInsert m kv.1 kv.2) t := rfl
    rw [heq, mapInsert_of_contains m kv.1 kv.2 (h kv (List.mem_cons_self kv t))]
    exact ih m (fun kv2 h2 => h kv2 (List.mem_cons_of_mem kv h2))

/-- Replaying the same trace a second time changes nothing. -/
theorem applyTrace_idem (m : valmap) (t : insTrace) :
    applyTrace (applyTrace m t) t = applyTrace m t := by
  apply applyTrace_eq_of_contains
  intro kv h
  exact mapContains_applyTrace_of_mem t m kv h

/-- Replaying a trace never changes the values of an already-present key. -/
theorem mapLookup_applyTrace_of_contains (t : insTrace) :
    ∀ (m : valmap) (k : arg), mapContains m k = true →
      mapLookup (applyTrace m t) k = mapLookup m k := by
  induction t with
  | nil => intro m k _; rfl
  | cons kv t ih =>
    intro m k h
    have heq : applyTrace m (kv :: t) = applyTrace (mapInsert m kv.1 kv.2) t := rfl
    rw [heq, ih _ k (mapContains_mapInsert_mono m k kv.1 kv.2 h)]
    exact mapLookup_mapInsert_of_contains m k kv.1 kv.2 h

/-- The failing input for C1: one optional specification with directive
-n, kind Integer and fixed arity 1, and the raw token list [-n]: the
directive matches and one more token is required, but none remains. -/
def c1parser : argparse :=
  { description := "", completed := false, varargs := false, appname := "app",
    map := [], arguments := ["-n"], positional_parsers := [],
    optional_parsers := [⟨"num", .Integer, 1, "", ["-n"]⟩] }

/-- C1: during phase 1, when a directive of a fixed-arity option matches
and fewer tokens remain than its arity, the claim says parse fails with
InsufficientArguments and never reads past the end of the raw token list.
The source performs the consumption loop with no end-of-input check: it
dereferences the past-the-end iterator (undefined behavior, modelled as
OutOfBounds) and raises no InsufficientArguments error in phase 1. -/
theorem c1_phase1_reads_past_end :
    (parseF c1parser).2 = some PErr.OutOfBounds ∧
    (parseF c1parser).2 ≠ some PErr.InsufficientArguments := by
  have h : (parseF c1parser).2 = some PErr.OutOfBounds := by
    simp [parseF, phase1_cons, phase1_nil, scanOpts, consumeFixed, consumeVar, optMatch,
          anyOptMatches, mkValue, assert_argument_type, convert_integer, stol,
          variable_args, c1parser]
  exact ⟨h, by rw [h]; simp⟩

/-- Registering two optional specifications with the same name foo, on a
parser that already has the implicit help option. -/
def c2reg : Except RegErr argparse :=
  match add_option (mkArgparse "app" [] "" true) ["-a"] "foo" .Bool 0 "" with
  | .error e => .error e
  | .ok p1 => add_option p1 ["-b"] "foo" .Bool 0 ""

/-- C2 counterexample: the claim says registration fails with
RegistrationError whenever the name collides with any already-registered
name.  Registering the name foo twice succeeds, and the registered set
ends up holding the duplicate name. -/
theorem c2_name_collision_not_rejected :
    c2reg ≠ .error RegErr.RegistrationError ∧
    (match c2reg with
     | .ok p => p.optional_parsers.map (fun o => o.name)
     | .error _ => []) = ["help", "foo", "foo"] := by
  decide

/-- C2 amended: add_option fails with RegistrationError exactly when the
name equals help, and add_argument exactly when the name equals help or a
negative-arity positional was registered before; a collision with any
other already-registered name is accepted. -/
theorem c2_only_help_and_varargs_rejected (p : argparse) (dirs : List arg) (name : arg)
    (t : value_type) (n : Int) (com : arg) :
    (add_option p dirs name t n com = .error .RegistrationError ↔ name = "help") ∧
    (add_argument p name t n com = .error .RegistrationError ↔
      (name = "help" ∨ p.varargs = true)) := by
  constructor
  · constructor
    · intro h
      by_cases hn : name = "help"
      · exact hn
      · simp [add_option, hn] at h
    · intro h
      simp [add_option, h]
  · constructor
    · intro h
      by_cases hn : name = "help"
      · exact Or.inl hn
      · by_cases hv : p.varargs
        · exact Or.inr hv
        · simp [add_argument, hn, hv] at h
    · intro h
      rcases h with h | h
      · simp [add_argument, h]
      · by_cases hn : name = "help"
        · simp [add_argument, hn]
        · simp [add_argument, hn, h]

/-- C10: add_argument and add_option reject the name help with a
RegistrationError on every parser state, in particular on a parser
constructed with automatic help registration disabled, whose optional
list starts empty. -/
theorem c10_help_reserved_unconditionally :
    (∀ (p : argparse) (dirs : List arg) (t : value_type) (n : Int) (com : arg),
      add_argument p "help" t n com = .error .RegistrationError ∧
      add_option p dirs "help" t n com = .error .RegistrationError) ∧
    (∀ (appname : arg) (tokens : args) (desc : arg),
      (mkArgparse appname tokens desc false).optional_parsers = []) := by
  constructor
  · intro p dirs t n com
    constructor
    · simp [add_argument]
    · simp [add_option]
  · intro appname tokens desc
    simp [mkArgparse]

/-- consumeAll returns one value per token, so on a nonempty input an ok
result is nonempty. -/
theorem consumeAll_cons_ne_nil (t : value_type) (s : arg) (l1 : args) (v : List value)
    (h : consumeAll t (s :: l1) = .ok v) : v ≠ [] := by
  simp only [consumeAll] at h
  cases hm : mkValue t s with
  | error e => rw [hm] at h; simp at h
  | ok w =>
    rw [hm] at h
    cases hc : consumeAll t l1 with
    | error e => rw [hc] at h; simp at h
    | ok vs =>
      rw [hc] at h
      simp at h
      rw [← h]
      simp

/-- C5: in phase 2, a positional specification reached with the remaining
sequence exhausted fails with the insufficient-arguments error whatever
its arity, VARIABLE included; consequently, in a successful phase 2 every
VARIABLE-arity positional specification records a nonempty value list
(unlike a VARIABLE-arity optional, which may record an empty one). -/
theorem c5_positional_exhausted_fails :
    (∀ (p : positional_argument) (rest : List positional_argument),
      phase2 (p :: rest) [] = ([], some PErr.InsufficientArguments)) ∧
    (∀ (q : positional_argument), q.nargs = variable_args →
      ∀ (pre post : List positional_argument) (l : args) (tr : insTrace),
        phase2 (pre ++ q :: post) l = (tr, none) →
        ∃ vs, vs ≠ [] ∧ (q.name, vs) ∈ tr) := by
  constructor
  · intro p rest
    rfl
  · intro q hq pre
    induction pre with
    | nil =>
      intro post l tr h
      match l with
      | [] => simp [phase2] at h
      | s :: l1 =>
        have h1 : ¬(1 ≤ q.nargs) := by rw [hq]; simp [variable_args]
        have h2 : (q.nargs == variable_args) = true := by rw [hq]; simp
        simp only [List.nil_append, phase2, if_neg h1, h2, if_true] at h
        cases hca : consumeAll q.type (s :: l1) with
        | error e => rw [hca] at h; simp at h
        | ok v =>
          rw [hca] at h
          dsimp only at h
          rw [Prod.mk.injEq] at h
          exact ⟨v, consumeAll_cons_ne_nil q.type s l1 v hca,
                 by rw [← h.1]; exact List.mem_cons_self _ _⟩
    | cons p0 pre ih =>
      intro post l tr h
      match l with
      | [] => simp [phase2] at h
      | s :: l1 =>
        simp only [List.cons_append, phase2] at h
        by_cases hn1 : 1 ≤ p0.nargs
        · rw [if_pos hn1] at h
          cases hcp : consumePos p0.type p0.nargs.toNat (s :: l1) with
          | error e => rw [hcp] at h; simp at h
          | ok pr =>
            obtain ⟨v, l2⟩ := pr
            rw [hcp] at h
            dsimp only at h
            rcases hp2 : phase2 (List.append pre (q :: post)) l2 with ⟨t2, r2⟩
            rw [hp2] at h
            rw [Prod.mk.injEq] at h
            dsimp only at h
            obtain ⟨vs, hne, hmem⟩ := ih post l2 t2
              (by show phase2 (List.append pre (q :: post)) l2 = (t2, none); rw [hp2, h.2])
            exact ⟨vs, hne, by rw [← h.1]; exact List.mem_cons_of_mem _ hmem⟩
        · rw [if_neg hn1] at h
          by_cases hn2 : (p0.nargs == variable_args) = true
          · rw [if_pos hn2] at h
            cases hca : consumeAll p0.type (s :: l1) with
            | error e => rw [hca] at h; simp at h
            | ok v =>
              rw [hca] at h
              dsimp only at h
              rcases hp2 : phase2 (List.append pre (q :: post)) [] with ⟨t2, r2⟩
              rw [hp2] at h
              rw [Prod.mk.injEq] at h
              dsimp only at h
              obtain ⟨vs, hne, hmem⟩ := ih post [] t2
                (by show phase2 (List.append pre (q :: post)) [] = (t2, none); rw [hp2, h.2])
              exact ⟨vs, hne, by rw [← h.1]; exact List.mem_cons_of_mem _ hmem⟩
          · rw [if_neg hn2] at h
            rcases hp2 : phase2 (List.append pre (q :: post)) (s :: l1) with ⟨t2, r2⟩
            rw [hp2] at h
            rw [Prod.mk.injEq] at h
            dsimp only at h
            obtain ⟨vs, hne, hmem⟩ := ih post (s :: l1) t2
              (by show phase2 (List.append pre (q :: post)) (s :: l1) = (t2, none); rw [hp2, h.2])
            exact ⟨vs, hne, by rw [← h.1]; exact List.mem_cons_of_mem _ hmem⟩

/-- C5 witness: a single fixed-arity positional with an empty remaining
sequence fails, and a concrete successful phase 2 with a VARIABLE-arity
positional records a nonempty list. -/
theorem c5_witness :
    phase2 [⟨"file", .String, 1, ""⟩] [] = ([], some PErr.InsufficientArguments) ∧
    (∃ vs, vs ≠ [] ∧ ((⟨"xs", .String, variable_args, ""⟩ : positional_argument).name, vs) ∈
      [("xs", [(⟨.String, "a"⟩ : value)])]) :=
  ⟨c5_positional_exhausted_fails.1 ⟨"file", .String, 1, ""⟩ [],
   c5_positional_exhausted_fails.2 ⟨"xs", .String, variable_args, ""⟩ rfl [] [] ["a"]
     [("xs", [⟨.String, "a"⟩])] (by decide)⟩

/-- parseF leaves the completed flag unchanged whenever it reports an
error: the success branch is the only one writing the flag. -/
theorem parseF_error_completed (p q : argparse) (e : PErr)
    (h : parseF p = (q, some e)) : q.completed = p.completed := by
  unfold parseF at h
  rcases h1 : phase1 p.optional_parsers p.arguments [] with ⟨t1, r1⟩
  rw [h1] at h
  cases r1 with
  | error e1 =>
    dsimp only at h
    rw [Prod.mk.injEq] at h
    rw [← h.1]
  | ok rem =>
    dsimp only at h
    rcases h2 : phase2 p.positional_parsers rem with ⟨t2, r2⟩
    rw [h2] at h
    cases r2 with
    | some e2 =>
      dsimp only at h
      rw [Prod.mk.injEq] at h
      rw [← h.1]
    | none =>
      dsimp only at h
      rw [Prod.mk.injEq] at h
      exact absurd h.2 (by simp)

/-- C7: get and getall fail with ParserNotReady whenever the completed
flag is down; the flag starts down on a freshly constructed parser; and a
parse call that reports an error (the rethrow path taken when
help_on_error is disabled) leaves the flag unchanged, so a fresh parser
stays not-ready after a failed parse. -/
theorem c7_not_ready_queries_fail :
    (∀ (α : Type) (conv : value → Except QueryErr α) (p : argparse) (name : arg),
      p.completed = false →
      get conv p name = .error .ParserNotReady ∧
      getall conv p name = .error .ParserNotReady) ∧
    (∀ (appname : arg) (tokens : args) (desc : arg) (with_help : Bool),
      (mkArgparse appname tokens desc with_help).completed = false) ∧
    (∀ (p q : argparse) (e : PErr), parseF p = (q, some e) → q.completed = p.completed) := by
  refine ⟨?_, ?_, ?_⟩
  · intro α conv p name h
    constructor
    · simp [get, h]
    · simp [getall, h]
  · intro appname tokens desc with_help
    rfl
  · intro p q e h
    exact parseF_error_completed p q e h

/-- A fresh parser with one fixed-arity positional and no raw tokens: its
parse fails with the insufficient-arguments error. -/
def c7parser : argparse :=
  { description := "", completed := false, varargs := false, appname := "app",
    map := [], arguments := [],
    positional_parsers := [⟨"x", .String, 1, ""⟩], optional_parsers := [] }

/-- C7 witness: the queries fail on the fresh parser, the constructed
parser starts not-ready, and after the failed parse the flag is still
down. -/
theorem c7_witness :
    get (fun v => .ok v.raw) c7parser "x" = .error QueryErr.ParserNotReady ∧
    getall (fun v => .ok v.raw) c7parser "x" = .error QueryErr.ParserNotReady ∧
    (mkArgparse "app" [] "" true).completed = false ∧
    (parseF c7parser).1.completed = c7parser.completed := by
  have hfail : parseF c7parser = ((parseF c7parser).1, some PErr.InsufficientArguments) := by
    simp [parseF, phase1_nil, phase2, applyTrace, c7parser]
  refine ⟨(c7_not_ready_queries_fail.1 arg (fun v => .ok v.raw) c7parser "x" rfl).1,
          (c7_not_ready_queries_fail.1 arg (fun v => .ok v.raw) c7parser "x" rfl).2,
          c7_not_ready_queries_fail.2.1 "app" [] "" true,
          c7_not_ready_queries_fail.2.2 c7parser (parseF c7parser).1
            PErr.InsufficientArguments hfail⟩

/-- C8: reading a value of kind Bool accepts the texts true and false
case-insensitively, otherwise returns the integer truthiness of the stol
parse of the text (zero false, nonzero true), and otherwise fails with
the conversion error. -/
theorem c8_bool_reading (s : arg) :
    (s.data.map Char.toLower = "true".data → convert_bool s = .ok true) ∧
    (s.data.map Char.toLower = "false".data → convert_bool s = .ok false) ∧
    (s.data.map Char.toLower ≠ "true".data → s.data.map Char.toLower ≠ "false".data →
      (∀ n : Int, stol s = some n → convert_bool s = .ok (n != 0)) ∧
      (stol s = none → convert_bool s = .error PErr.ConversionError)) := by
  refine ⟨?_, ?_, ?_⟩
  · intro h
    simp [convert_bool, lowerEq, h]
  · intro h
    simp [convert_bool, lowerEq, h]
  · intro ht hf
    constructor
    · intro n hn
      simp [convert_bool, lowerEq, ht, hf, hn]
    · intro hn
      simp [convert_bool, lowerEq, ht, hf, hn]

/-- C8 witness: concrete instances of every branch, obtained from the C8
theorem: case-insensitive literals, nonzero and zero integer texts, a
text with an integer prefix (stol ignores trailing characters), and a
non-numeric text. -/
theorem c8_witness :
    convert_bool "TRUE" = .ok true ∧
    convert_bool "FaLsE" = .ok false ∧
    convert_bool "7" = .ok true ∧
    convert_bool "-0" = .ok false ∧
    convert_bool "12abc" = .ok true ∧
    convert_bool "x" = .error PErr.ConversionError :=
  ⟨(c8_bool_reading "TRUE").1 (by decide),
   (c8_bool_reading "FaLsE").2.1 (by decide),
   by simpa using ((c8_bool_reading "7").2.2 (by decide) (by decide)).1 7 (by decide),
   by simpa using ((c8_bool_reading "-0").2.2 (by decide) (by decide)).1 0 (by decide),
   by simpa using ((c8_bool_reading "12abc").2.2 (by decide) (by decide)).1 12 (by decide),
   ((c8_bool_reading "x").2.2 (by decide) (by decide)).2 (by decide)⟩

/-- C9: running parse twice on an unchanged parser (same specifications,
and the raw token list is fixed at construction), with both runs
succeeding, yields an identical result map: the scan is deterministic and
independent of the map, and reinserting the same keys is a no-op. -/
theorem c9_reparse_same_map (p p1 p2 : argparse)
    (h1 : parseF p = (p1, none)) (h2 : parseF p1 = (p2, none)) : p2.map = p1.map := by
  unfold parseF at h1
  rcases e1 : phase1 p.optional_parsers p.arguments [] with ⟨t1, r1⟩
  rw [e1] at h1
  cases r1 with
  | error e => simp at h1
  | ok rem =>
    dsimp only at h1
    rcases e2 : phase2 p.positional_parsers rem with ⟨t2, r2⟩
    rw [e2] at h1
    cases r2 with
    | some e => simp at h1
    | none =>
      dsimp only at h1
      rw [Prod.mk.injEq] at h1
      have hp1 : p1 = { p with map := applyTrace p.map (t1 ++ t2), completed := true } :=
        h1.1.symm
      subst hp1
      unfold parseF at h2
      dsimp only at h2
      rw [e1] at h2
      dsimp only at h2
      rw [e2] at h2
      dsimp only at h2
      rw [Prod.mk.injEq] at h2
      rw [← h2.1]
      dsimp only
      exact applyTrace_idem p.map (t1 ++ t2)

/-- A parser with one arity-0 Bool option on directive -v and the raw
token list containing just that directive. -/
def c9p : argparse :=
  { description := "", completed := false, varargs := false, appname := "app",
    map := [], arguments := ["-v"], positional_parsers := [],
    optional_parsers := [⟨"verbose", .Bool, 0, "", ["-v"]⟩] }

/-- The state produced by the first successful parse of c9p. -/
def c9q : argparse :=
  { c9p with map := [("verbose", [valueTrue])], completed := true }

/-- C9 witness: both parse runs on the concrete parser succeed and the
second run leaves the map of the first run unchanged. -/
theorem c9_witness : (parseF c9q).1.map = c9q.map := by
  have h1 : parseF c9p = (c9q, none) := by
    simp [parseF, phase1_cons, phase1_nil, scanOpts, consumeFixed, consumeVar, optMatch,
          anyOptMatches, phase2, applyTrace, mapInsert, mapContains, valueTrue,
          c9p, c9q, variable_args]
  have h2 : parseF c9q = (c9q, none) := by
    simp [parseF, phase1_cons, phase1_nil, scanOpts, consumeFixed, consumeVar, optMatch,
          anyOptMatches, phase2, applyTrace, mapInsert, mapContains, valueTrue,
          c9p, c9q, variable_args]
  exact c9_reparse_same_map c9p c9q (parseF c9q).1 h1 (by rw [h2])

/-- C3 amended: parse never clears the member map; it merges into it with
insert-if-absent semantics, so every name bound before a parse call keeps
exactly its old values afterwards, whether the parse succeeds or fails.
Only on a parser whose map is empty does the result depend solely on the
registered specifications and the raw tokens. -/
theorem c3_parse_merges_map (p q : argparse) (r : Option PErr) (k : arg)
    (hpq : parseF p = (q, r)) (hk : mapContains p.map k = true) :
    mapLookup q.map k = mapLookup p.map k := by
  unfold parseF at hpq
  rcases e1 : phase1 p.optional_parsers p.arguments [] with ⟨t1, r1⟩
  rw [e1] at hpq
  cases r1 with
  | error e =>
    dsimp only at hpq
    rw [Prod.mk.injEq] at hpq
    rw [← hpq.1]
    exact mapLookup_applyTrace_of_contains t1 p.map k hk
  | ok rem =>
    dsimp only at hpq
    rcases e2 : phase2 p.positional_parsers rem with ⟨t2, r2⟩
    rw [e2] at hpq
    cases r2 with
    | some e =>
      dsimp only at hpq
      rw [Prod.mk.injEq] at hpq
      rw [← hpq.1]
      exact mapLookup_applyTrace_of_contains (t1 ++ t2) p.map k hk
    | none =>
      dsimp only at hpq
      rw [Prod.mk.injEq] at hpq
      rw [← hpq.1]
      exact mapLookup_applyTrace_of_contains (t1 ++ t2) p.map k hk

/-- A parser whose map already binds the name x before any parse call. -/
def c3wit : argparse :=
  { description := "", completed := false, varargs := false, appname := "app",
    map := [("x", [⟨.String, "v"⟩])], arguments := [], positional_parsers := [],
    optional_parsers := [] }

/-- C3 witness for the amended statement: a parser with a prebound name
keeps its values across a parse call. -/
theorem c3_witness :
    mapLookup (parseF c3wit).1.map "x" = mapLookup c3wit.map "x" := by
  have h2 : parseF c3wit = ((parseF c3wit).1, (parseF c3wit).2) := rfl
  exact c3_parse_merges_map c3wit (parseF c3wit).1 (parseF c3wit).2 "x" h2 (by decide)

/-- The registration pipeline for the C3 counterexample, first step: raw
tokens 1 and 2, no help option, one VARIABLE-arity Integer positional
named p. -/
def c3afterReg : argparse :=
  match add_argument (mkArgparse "app" ["1", "2"] "" false) "p" .Integer (-1) "" with
  | .ok p1 => p1
  | .error _ => mkArgparse "app" ["1", "2"] "" false

/-- Stale pipeline: parse once, then register an arity-0 option named one
on directive 1, then parse again. -/
def c3stale : argparse × Option PErr :=
  match add_option (parseF c3afterReg).1 ["1"] "one" .Bool 0 "" with
  | .ok p3 => parseF p3
  | .error _ => (c3afterReg, none)

/-- Fresh pipeline: the same registrations in the same order, with a
single parse at the end. -/
def c3fresh : argparse × Option PErr :=
  match add_option c3afterReg ["1"] "one" .Bool 0 "" with
  | .ok p2 => parseF p2
  | .error _ => (c3afterReg, none)

/-- The parser state to which the second parse of the stale pipeline is
applied: the map still binds p from the first parse call. -/
def c3staleStart : argparse :=
  { description := "", completed := false, varargs := true, appname := "app",
    map := [("p", [⟨.Integer, "1"⟩, ⟨.Integer, "2"⟩])], arguments := ["1", "2"],
    positional_parsers := [⟨"p", .Integer, -1, ""⟩],
    optional_parsers := [⟨"one", .Bool, 0, "", ["1"]⟩] }

/-- The same registered state with an empty map, as the fresh pipeline
reaches its single parse call. -/
def c3freshStart : argparse :=
  { description := "", completed := false, varargs := true, appname := "app",
    map := [], arguments := ["1", "2"],
    positional_parsers := [⟨"p", .Integer, -1, ""⟩],
    optional_parsers := [⟨"one", .Bool, 0, "", ["1"]⟩] }

/-- C3 counterexample: both pipelines end in a successful parse and end
with identical registered specifications and identical raw tokens, yet
the stale pipeline keeps the binding p to [1, 2] inserted by its first
parse call, while the fresh parse of the same state binds p to [2]: the
map is merged across parse calls, not rebuilt from the current state. -/
theorem c3_map_not_rebuilt :
    (parseF c3afterReg).2 = none ∧
    c3stale.2 = none ∧ c3fresh.2 = none ∧
    c3stale.1.positional_parsers = c3fresh.1.positional_parsers ∧
    c3stale.1.optional_parsers = c3fresh.1.optional_parsers ∧
    c3stale.1.arguments = c3fresh.1.arguments ∧
    mapLookup c3stale.1.map "p" = some [⟨.Integer, "1"⟩, ⟨.Integer, "2"⟩] ∧
    mapLookup c3fresh.1.map "p" = some [⟨.Integer, "2"⟩] := by
  have h1 : parseF c3afterReg =
      ({ description := "", completed := true, varargs := true, appname := "app",
         map := [("p", [⟨.Integer, "1"⟩, ⟨.Integer, "2"⟩])], arguments := ["1", "2"],
         positional_parsers := [⟨"p", .Integer, -1, ""⟩],
         optional_parsers := [] }, none) := by
    simp [c3afterReg, mkArgparse, add_argument, parseF, phase1_cons, phase1_nil, scanOpts,
          consumeFixed, consumeVar, consumeAll, consumePos, phase2, optMatch, anyOptMatches,
          mkValue, assert_argument_type, convert_integer, stol, variable_args, applyTrace,
          mapInsert, mapContains, digitsToNat, isSpaceChar]
  refine ⟨by rw [h1], ?_⟩
  have hs : c3stale = parseF c3staleStart := by
    unfold c3stale
    rw [h1]
    rfl
  have hf : c3fresh = parseF c3freshStart := by
    unfold c3fresh
    rfl
  rw [hs, hf]
  refine ⟨?_, ?_, ?_, ?_, ?_, ?_, ?_⟩ <;>
  simp [c3staleStart, c3freshStart, parseF, phase1_cons, phase1_nil, scanOpts, consumeFixed,
        consumeVar, consumeAll, consumePos, phase2, optMatch, anyOptMatches, mkValue,
        assert_argument_type, convert_integer, convert_bool, lowerEq, stol, variable_args,
        applyTrace, mapInsert, mapContains, mapLookup, valueTrue, digitsToNat, isSpaceChar]

/-- An ok result of the value constructor is the container of the
declared type and the raw text. -/
theorem mkValue_ok (t : value_type) (s : arg) (v : value)
    (h : mkValue t s = .ok v) : v = ⟨t, s⟩ := by
  unfold mkValue at h
  cases ha : assert_argument_type t s with
  | ok u =>
    rw [ha] at h
    simp at h
    exact h.symm
  | error e =>
    rw [ha] at h
    simp at h

/-- When every token before the first directive match converts, the
variable-arity consumption of phase 1 takes exactly the longest prefix of
tokens matching no registered directive, and leaves the rest. -/
theorem consumeVar_takeWhile (t : value_type) (ops : List optional_argument) :
    ∀ (l : args),
      (∀ x ∈ l.takeWhile (fun x => !anyOptMatches ops x), assert_argument_type t x = .ok ()) →
      consumeVar t ops l =
        .ok ((l.takeWhile (fun x => !anyOptMatches ops x)).map (fun x => (⟨t, x⟩ : value)),
             l.dropWhile (fun x => !anyOptMatches ops x)) := by
  intro l
  induction l with
  | nil => intro _; rfl
  | cons s l1 ih =>
    intro hc
    by_cases hm : anyOptMatches ops s = true
    · simp only [consumeVar, hm, if_true, List.takeWhile_cons, List.dropWhile_cons,
                 Bool.not_true, if_false]
      rfl
    · have hps : (!anyOptMatches ops s) = true := by
        rw [Bool.not_eq_true] at hm
        rw [hm]
        rfl
      have hmem : s ∈ (s :: l1).takeWhile (fun x => !anyOptMatches ops x) := by
        rw [List.takeWhile_cons, if_pos hps]
        exact List.mem_cons_self _ _
      have hmk : mkValue t s = .ok ⟨t, s⟩ := by
        unfold mkValue
        rw [hc s hmem]
      have hc1 : ∀ x ∈ l1.takeWhile (fun x => !anyOptMatches ops x),
          assert_argument_type t x = .ok () := by
        intro x hx
        refine hc x ?_
        rw [List.takeWhile_cons, if_pos hps]
        exact List.mem_cons_of_mem _ hx
      simp only [consumeVar, hm, if_false, hmk, ih hc1, List.takeWhile_cons,
                 List.dropWhile_cons, hps, if_true]
      rfl

/-- C4 amended: when a VARIABLE-arity optional specification matches, the
scan consumes the longest run of following tokens that match no
registered optional directive, the matched option's own directives
included (the claim says only directives of other specifications stop
the consumption), converts each consumed token to the option's kind, and
records the list, possibly empty, under the option's name before the
pass continues on the rest of the input. -/
theorem c4_variable_consumption (allOps : List optional_argument) (o : optional_argument)
    (rest : List optional_argument) (s : arg) (l : args) (u : Bool)
    (hm : optMatch o s = true) (hn : o.nargs = variable_args)
    (hc : ∀ x ∈ l.takeWhile (fun x => !anyOptMatches allOps x),
      assert_argument_type o.type x = .ok ()) :
    scanOpts allOps (o :: rest) (s :: l) u =
      ((o.name, (l.takeWhile (fun x => !anyOptMatches allOps x)).map
          (fun x => (⟨o.type, x⟩ : value))) ::
         (scanOpts allOps rest (l.dropWhile (fun x => !anyOptMatches allOps x)) true).1,
       (scanOpts allOps rest (l.dropWhile (fun x => !anyOptMatches allOps x)) true).2) := by
  have h0 : ¬((o.nargs == 0) = true) := by rw [hn]; simp [variable_args]
  have h1 : ¬(1 ≤ o.nargs) := by rw [hn]; simp [variable_args]
  have h2 : (o.nargs == variable_args) = true := by rw [hn]; simp
  simp only [scanOpts, hm, if_true, if_neg h0, if_neg h1, h2,
             consumeVar_takeWhile o.type allOps l hc]

/-- The optional specification of the C4 example: directive -t, name
tags, kind String, VARIABLE arity. -/
def c4opt : optional_argument := ⟨"tags", .String, variable_args, "", ["-t"]⟩

/-- C4 witness for the amended statement: the concrete scan stops the
consumption at the second -t, a directive of the matched option itself. -/
theorem c4_witness :
    scanOpts [c4opt] [c4opt] ["-t", "a", "-t", "b"] false =
      ([("tags", [⟨.String, "a"⟩])], .ok (true, ["-t", "b"])) := by
  rw [c4_variable_consumption [c4opt] c4opt [] "-t" ["a", "-t", "b"] false
      (by decide) (by decide) (by decide)]
  decide

/-- Modelled from the claim wording, for comparison with the source scan:
variable-arity consumption that stops only at a token matching a
directive of some other registered optional specification, the matched
specification itself excluded. -/
def consumeVarOther (self : optional_argument) (t : value_type)
    (ops : List optional_argument) (l : args) : Except PErr (List value × args) :=
  match l with
  | [] => .ok ([], [])
  | s :: l1 =>
    if anyOptMatches (ops.filter (fun o => decide (o ≠ self))) s then .ok ([], s :: l1)
    else
      match mkValue t s with
      | .error e => .error e
      | .ok v =>
        match consumeVarOther self t ops l1 with
        | .error e => .error e
        | .ok (vs, l2) => .ok (v :: vs, l2)

/-- The parser of the C4 counterexample: the single VARIABLE-arity option
tags and the raw tokens -t a -t b. -/
def c4parser : argparse :=
  { description := "", completed := false, varargs := false, appname := "app",
    map := [], arguments := ["-t", "a", "-t", "b"], positional_parsers := [],
    optional_parsers := [c4opt] }

/-- C4 counterexample: with only the tags specification registered there
is no other optional directive, so under the claim the consumption after
the first -t would take all of a, -t, b; the source scan instead stops at
-t, a directive of the matched specification itself, binds tags to the
single value a, and the parse still succeeds. -/
theorem c4_stops_at_own_directive :
    (parseF c4parser).2 = none ∧
    mapLookup (parseF c4parser).1.map "tags" = some [⟨.String, "a"⟩] ∧
    consumeVarOther c4opt .String [c4opt] ["a", "-t", "b"] =
      .ok ([⟨.String, "a"⟩, ⟨.String, "-t"⟩, ⟨.String, "b"⟩], []) ∧
    ([(⟨.String, "a"⟩ : value)] : List value) ≠
      [⟨.String, "a"⟩, ⟨.String, "-t"⟩, ⟨.String, "b"⟩] := by
  refine ⟨?_, ?_, by decide, by decide⟩ <;>
  simp [c4parser, c4opt, parseF, phase1_cons, phase1_nil, scanOpts, consumeFixed,
        consumeVar, consumeAll, consumePos, phase2, optMatch, anyOptMatches, mkValue,
        assert_argument_type, convert_string, stol, variable_args, applyTrace,
        mapInsert, mapContains, mapLookup]

/-- Parser states reachable through the public interface: construction,
registration calls that return normally, and parse calls. -/
inductive Reachable : argparse → Prop where
  | init : ∀ (appname : arg) (tokens : args) (desc : arg) (with_help : Bool),
      Reachable (mkArgparse appname tokens desc with_help)
  | addArg : ∀ (p q : argparse) (name : arg) (t : value_type) (n : Int) (com : arg),
      Reachable p → add_argument p name t n com = .ok q → Reachable q
  | addOpt : ∀ (p q : argparse) (dirs : List arg) (name : arg) (t : value_type)
      (n : Int) (com : arg),
      Reachable p → add_option p dirs name t n com = .ok q → Reachable q
  | parsed : ∀ (p : argparse), Reachable p → Reachable (parseF p).1

/-- parseF only writes the map and the completed flag: the varargs flag
and the registered specification lists survive unchanged. -/
theorem parseF_fields (p : argparse) :
    (parseF p).1.varargs = p.varargs ∧
    (parseF p).1.positional_parsers = p.positional_parsers := by
  unfold parseF
  rcases e1 : phase1 p.optional_parsers p.arguments [] with ⟨t1, r1⟩
  cases r1 with
  | error e => exact ⟨rfl, rfl⟩
  | ok rem =>
    dsimp only
    rcases e2 : phase2 p.positional_parsers rem with ⟨t2, r2⟩
    cases r2 with
    | some e => exact ⟨rfl, rfl⟩
    | none => exact ⟨rfl, rfl⟩

/-- Invariant of every reachable parser state: when the varargs flag is
down every registered positional has nonnegative arity, and every
registered positional other than the last has nonnegative arity. -/
theorem reachable_positionals (p : argparse) (h : Reachable p) :
    (p.varargs = false → ∀ q ∈ p.positional_parsers, 0 ≤ q.nargs) ∧
    (∀ q ∈ p.positional_parsers.dropLast, 0 ≤ q.nargs) := by
  induction h with
  | init appname tokens desc wh =>
    constructor
    · intro _ q hq
      simp [mkArgparse] at hq
    · intro q hq
      simp [mkArgparse] at hq
  | addArg p q name t n com hr heq ih =>
    unfold add_argument at heq
    by_cases h1 : (name == "help") = true
    · rw [if_pos h1] at heq
      exact absurd heq (by simp)
    · rw [if_neg h1] at heq
      by_cases h2 : p.varargs = true
      · rw [if_pos h2] at heq
        exact absurd heq (by simp)
      · rw [if_neg h2] at heq
        simp only [Except.ok.injEq] at heq
        subst heq
        have hv : p.varargs = false := by
          rw [Bool.not_eq_true] at h2
          exact h2
        constructor
        · intro hv2 x hx
          simp only [Bool.or_eq_false_iff] at hv2
          rcases List.mem_append.mp hx with hx1 | hx1
          · exact (ih.1 hv2.1) x hx1
          · simp only [List.mem_singleton] at hx1
            rw [hx1]
            have hnn : ¬(n < 0) := by
              intro hlt
              rw [decide_eq_true hlt] at hv2
              exact absurd hv2.2 (by simp)
            show (0 : Int) ≤ n
            omega
        · intro x hx
          rw [List.dropLast_concat] at hx
          exact ih.1 hv x hx
  | addOpt p q dirs name t n com hr heq ih =>
    unfold add_option at heq
    by_cases h1 : (name == "help") = true
    · rw [if_pos h1] at heq
      exact absurd heq (by simp)
    · rw [if_neg h1] at heq
      simp only [Except.ok.injEq] at heq
      subst heq
      exact ih
  | parsed p hr ih =>
    have hf := parseF_fields p
    rw [hf.1, hf.2]
    exact ih

/-- C6: once a negative-arity (in particular VARIABLE-arity) positional
specification is registered the varargs flag is up, every further
add_argument call fails with RegistrationError, and consequently in every
reachable parser state every positional specification other than the last
has nonnegative arity, so at most one is VARIABLE and it is the last. -/
theorem c6_variable_positional_is_last :
    (∀ (p q : argparse) (name : arg) (t : value_type) (n : Int) (com : arg),
      add_argument p name t n com = .ok q → n < 0 → q.varargs = true) ∧
    (∀ (p : argparse) (name : arg) (t : value_type) (n : Int) (com : arg),
      p.varargs = true → add_argument p name t n com = .error .RegistrationError) ∧
    (∀ p : argparse, Reachable p →
      ∀ q ∈ p.positional_parsers.dropLast, q.nargs ≠ variable_args) := by
  refine ⟨?_, ?_, ?_⟩
  · intro p q name t n com heq hn
    unfold add_argument at heq
    by_cases h1 : (name == "help") = true
    · rw [if_pos h1] at heq
      exact absurd heq (by simp)
    · rw [if_neg h1] at heq
      by_cases h2 : p.varargs = true
      · rw [if_pos h2] at heq
        exact absurd heq (by simp)
      · rw [if_neg h2] at heq
        simp only [Except.ok.injEq] at heq
        subst heq
        simp [decide_eq_true hn]
  · intro p name t n com hv
    unfold add_argument
    by_cases h1 : (name == "help") = true
    · rw [if_pos h1]
    · rw [if_neg h1, if_pos hv]
  · intro p hp q hq
    have := (reachable_positionals p hp).2 q hq
    simp only [variable_args]
    omega

/-- The parser used by the C6 witness before the VARIABLE registration. -/
def c6p0 : argparse := mkArgparse "app" [] "" true

/-- The parser after registering the VARIABLE-arity positional xs. -/
def c6p1 : argparse :=
  { c6p0 with
    varargs := true, completed := false,
    positional_parsers := [⟨"xs", .String, -1, ""⟩] }

/-- C6 witness: registering the VARIABLE positional raises the flag, a
subsequent positional registration fails, and the reachable state keeps
every non-last positional at nonnegative arity. -/
theorem c6_witness :
    c6p1.varargs = true ∧
    add_argument c6p1 "ys" .String 1 "" = .error RegErr.RegistrationError ∧
    (∀ q ∈ c6p1.positional_parsers.dropLast, q.nargs ≠ variable_args) :=
  ⟨c6_variable_positional_is_last.1 c6p0 c6p1 "xs" .String (-1) "" (by decide) (by decide),
   c6_variable_positional_is_last.2.1 c6p1 "ys" .String 1 "" (by decide),
   c6_variable_positional_is_last.2.2 c6p1
     (Reachable.addArg c6p0 c6p1 "xs" .String (-1) ""
       (Reachable.init "app" [] "" true) (by decide))⟩

end Argparse
